import Mathlib

/-!
# Reversed playlist rebuild: embedding of `main.go`

A shallow embedding of the playlist-fixing command: the selection parser
`parseInput`, the slice reversal `reverseIDs`, the per-playlist pipeline
`processPlaylist` (paginated fetch, reversal, creation, one-by-one append) and
the `/callback` handler of `main`.

Go strings are modelled as sequences of Unicode characters.  Go `int`s are
mathematical integers; the only place where the 64-bit range is observable is
the number scanner (`strconv.ParseInt` inside `fmt.Sscanf`), where it is
modelled explicitly.  Page offsets never exceed the number of items of the
playlist being listed, so they are natural numbers.

The remote service is a deterministic state machine `Client σ`; every remote
call and every line of output is appended to the trace of the `World`.  The
page-fetching loop `for { ... }` has no bound in the source, so it takes fuel
and the theorems state how much fuel makes it return.
-/

namespace SpotifyFix

/-! ## Data model -/

/-- The type `spotify.ID`: a string. -/
abbrev ID := String

/-- The fields of `spotify.SimplePlaylist` read by the program. -/
structure SimplePlaylist where
  ID : ID
  Name : String
  IsPublic : Bool
  Collaborative : Bool
  deriving DecidableEq, Repr

/-- The fields of `spotify.FullPlaylist` read by the program. -/
structure FullPlaylist where
  ID : ID
  Name : String
  deriving DecidableEq, Repr

/-- The field of `spotify.FullTrack` read by the program. -/
structure FullTrack where
  ID : ID
  deriving DecidableEq, Repr

/-- A playlist item: `item.Track.Track` is a pointer that is nil for an
episode or an empty slot. -/
structure PlaylistItem where
  Track : Option FullTrack
  deriving DecidableEq, Repr

/-- The remote calls issued by `processPlaylist`. -/
inductive Call where
  | getPlaylistItems (playlistID : ID) (limit offset : Nat)
  | createPlaylistForUser (userID name description : String) (isPublic collaborative : Bool)
  | addTracksToPlaylist (playlistID trackID : ID)
  deriving DecidableEq, Repr

/-- Observable events: remote calls, text written to standard output, lines
handed to the logger (without the time prefix it adds), and sleeping. -/
inductive Event where
  | call (c : Call)
  | print (s : String)
  | log (s : String)
  | sleep (seconds : Nat)
  deriving DecidableEq, Repr

/-- The remote service seen through `*spotify.Client`: each method takes the
current state of the service and returns a result and the next state. -/
structure Client (σ : Type) where
  GetPlaylistItems : σ → ID → Nat → Nat → Except String (List PlaylistItem) × σ
  CreatePlaylistForUser :
    σ → String → String → String → Bool → Bool → Except String FullPlaylist × σ
  AddTracksToPlaylist : σ → ID → ID → Except String String × σ

/-- The state of the remote service together with everything observed so far. -/
structure World (σ : Type) where
  st : σ
  trace : List Event

/-- The remote calls of a trace, in order. -/
def calls (tr : List Event) : List Call :=
  tr.filterMap fun e => match e with
    | .call c => some c
    | _ => none

/-! ## `reverseIDs` -/

/-- The assignment `output[i], output[j] = output[j], output[i]`. -/
def swapAt (output : List ID) (i j : Nat) : List ID :=
  match output[i]?, output[j]? with
  | some a, some b => (output.set i b).set j a
  | _, _ => output

/-- The loop `for i, j := 0, len(output)-1; i < j; i, j = i+1, j-1`. -/
def reverseLoop : Nat → List ID → Nat → Nat → List ID
  | 0, output, _, _ => output
  | fuel + 1, output, i, j =>
    if i < j then reverseLoop fuel (swapAt output i j) (i + 1) (j - 1) else output

/-- The function `reverseIDs`: copy the input and swap the ends inwards. -/
def reverseIDs (input : List ID) : List ID :=
  if input.length = 0 then input
  else reverseLoop input.length input 0 (input.length - 1)

/-! ## `parseInput` -/

/-- The predicate `unicode.IsSpace` (the scanner of `fmt` uses the same set). -/
def isSpace (c : Char) : Bool :=
  let r := c.toNat
  (9 ≤ r && r ≤ 13) || r == 32 || r == 0x85 || r == 0xA0 || r == 0x1680 ||
    (0x2000 ≤ r && r ≤ 0x200A) || r == 0x2028 || r == 0x2029 || r == 0x202F ||
    r == 0x205F || r == 0x3000

/-- The function `strings.TrimSpace`. -/
def trimSpace (s : List Char) : List Char :=
  (s.dropWhile isSpace).rdropWhile isSpace

/-- The function `strings.Split(s, ",")`. -/
def splitComma : List Char → List (List Char)
  | [] => [[]]
  | c :: cs =>
    if c = ',' then [] :: splitComma cs
    else
      match splitComma cs with
      | [] => [[c]]
      | t :: ts => (c :: t) :: ts

/-- The ways the scan of one `%d` operand fails. -/
inductive ScanError where
  | unexpectedNewline
  | unexpectedEOF
  | expectedInteger
  | outOfRange
  deriving DecidableEq, Repr

/-- The method `SkipSpace` of the scanner of `fmt` (newlines are not space for
`Sscanf`). -/
def skipSpace : List Char → Except ScanError (List Char)
  | [] => .ok []
  | r :: rest =>
    if r = Char.ofNat 13 ∧ rest.head? = some (Char.ofNat 10) then skipSpace rest
    else if r = Char.ofNat 10 then .error .unexpectedNewline
    else if isSpace r then skipSpace rest
    else .ok (r :: rest)

/-- Membership in `decimalDigits = "0123456789"`. -/
def isDigit (c : Char) : Bool :=
  48 ≤ c.toNat && c.toNat ≤ 57

/-- The value of a run of decimal digits. -/
def digitsValue (ds : List Char) : Nat :=
  ds.foldl (fun acc c => acc * 10 + (c.toNat - 48)) 0

/-- The call `strconv.ParseInt(tok, 10, 64)` on a token made of an optional
sign and a non-empty run of digits: the value, or a range error outside the
signed 64-bit range. -/
def parseInt64 (neg : Bool) (digits : List Char) : Except ScanError Int :=
  let un := digitsValue digits
  if neg then
    if un > 2 ^ 63 then .error .outOfRange else .ok (-(un : Int))
  else
    if un ≥ 2 ^ 63 then .error .outOfRange else .ok (un : Int)

/-- The method `scanInt` for the verb `%d` after the spaces have been skipped:
an optional sign, then the longest run of digits, which must not be empty;
whatever follows the digits is left unread. -/
def scanInt (s : List Char) : Except ScanError Int :=
  match s with
  | [] => .error .unexpectedEOF
  | c :: rest =>
    let neg := c == Char.ofNat 45
    let body := if c == Char.ofNat 43 || c == Char.ofNat 45 then rest else c :: rest
    match body with
    | [] => .error .unexpectedEOF
    | _ =>
      match body.span isDigit with
      | ([], _) => .error .expectedInteger
      | (digits, _) => parseInt64 neg digits

/-- The call `fmt.Sscanf(s, "%d", &val)`: its error, or the value stored in
`val`.  The input left after the integer is not examined. -/
def sscanfInt (s : List Char) : Except ScanError Int :=
  match skipSpace s with
  | .error e => .error e
  | .ok s1 =>
    match skipSpace s1 with
    | .error e => .error e
    | .ok s2 => scanInt s2

/-- The errors returned by `parseInput`. -/
inductive ParseError where
  | noInput
  | invalidNumber (s : String)
  | outOfRange (val : Int)
  deriving DecidableEq, Repr

/-- The loop of `parseInput` over the comma-separated parts. -/
def parseLoop (totalPlaylists : Int) :
    List (List Char) → List Int → Except ParseError (List Int)
  | [], indices => .ok indices
  | s :: parts, indices =>
    let s := trimSpace s
    if s = [] then parseLoop totalPlaylists parts indices
    else
      match sscanfInt s with
      | .error _ => .error (.invalidNumber (String.mk s))
      | .ok val =>
        if val < 1 ∨ val > totalPlaylists then .error (.outOfRange val)
        else parseLoop totalPlaylists parts (indices ++ [val - 1])

/-- The function `parseInput`: the 0-based indices, or an error and no
indices. -/
def parseInput (input : String) (totalPlaylists : Int) : Except ParseError (List Int) :=
  let input := trimSpace input.data
  if input = [] then .error .noInput
  else parseLoop totalPlaylists (splitComma input) []

/-- The message of an error of `parseInput`. -/
def ParseError.message : ParseError → String
  | .noInput => "No input provided"
  | .invalidNumber s => "Invalid number: " ++ s
  | .outOfRange val => "Number out of range: " ++ toString val

/-! ## `processPlaylist` -/

/-- Record events in the trace. -/
def World.emit {σ : Type} (w : World σ) (evs : List Event) : World σ :=
  ⟨w.st, w.trace ++ evs⟩

/-- The loop over `trackPage.Items`: keep the ID of every item that is a
track. -/
def appendTracks (allTracks : List ID) : List PlaylistItem → List ID
  | [] => allTracks
  | item :: items =>
    match item.Track with
    | some track => appendTracks (allTracks ++ [track.ID]) items
    | none => appendTracks allTracks items

/-- Part A of `processPlaylist`, the loop `for { ... }` fetching pages: `none`
when the fuel runs out, `some (none, w)` when a page request failed and the
function returns, `some (some allTracks, w)` when the loop breaks. -/
def fetchLoop {σ : Type} (c : Client σ) (p : SimplePlaylist) (limit : Nat) :
    Nat → World σ → Nat → List ID → Option (Option (List ID) × World σ)
  | 0, _, _, _ => none
  | fuel + 1, w, offset, allTracks =>
    match c.GetPlaylistItems w.st p.ID limit offset with
    | (.error err, st) =>
      some (none, ⟨st, w.trace ++ [.call (.getPlaylistItems p.ID limit offset),
        .log ("Error fetching tracks for " ++ p.Name ++ ": " ++ err ++ "\n")]⟩)
    | (.ok items, st) =>
      let w1 : World σ := ⟨st, w.trace ++ [.call (.getPlaylistItems p.ID limit offset)]⟩
      let allTracks := appendTracks allTracks items
      if items.length < limit then some (some allTracks, w1)
      else fetchLoop c p limit fuel w1 (offset + limit) allTracks

/-- Part D of `processPlaylist`, the loop `for i, trackID := range allTracks`
adding the tracks one by one. -/
def addLoop {σ : Type} (c : Client σ) (newPlaylist : FullPlaylist) (total : Nat) :
    List ID → Nat → World σ → World σ
  | [], _, w => w
  | trackID :: rest, i, w =>
    let w1 : World σ :=
      match c.AddTracksToPlaylist w.st newPlaylist.ID trackID with
      | (.error err, st) =>
        ⟨st, w.trace ++ [.call (.addTracksToPlaylist newPlaylist.ID trackID),
          .log ("Failed to add track " ++ trackID ++ " to playlist " ++ newPlaylist.Name ++
            ": " ++ err ++ "\n"),
          .print ("\nFailed to add track " ++ trackID ++ "\n")]⟩
      | (.ok _, st) => ⟨st, w.trace ++ [.call (.addTracksToPlaylist newPlaylist.ID trackID)]⟩
    let remaining := total - (i + 1)
    addLoop c newPlaylist total rest (i + 1)
      (w1.emit [.print ("\rTracks remaining: " ++ toString remaining ++ "   "), .sleep 1])

/-- The function `processPlaylist`: `none` only when the fetch loop does not
end within the fuel, otherwise the world when the function returns. -/
def processPlaylist {σ : Type} (fuel : Nat) (c : Client σ) (w : World σ) (userID : String)
    (p : SimplePlaylist) : Option (World σ) :=
  let w0 := w.emit [.print ("\nProcessing playlist: " ++ p.Name ++ "\n")]
  match fetchLoop c p 50 fuel w0 0 [] with
  | none => none
  | some (none, w1) => some w1
  | some (some allTracks, w1) =>
    if allTracks.length = 0 then some (w1.emit [.print "No tracks found.\n"])
    else
      let allTracks := reverseIDs allTracks
      let newName := p.Name ++ " Fixed"
      match c.CreatePlaylistForUser w1.st userID newName ("Fixed copy of " ++ p.Name)
          p.IsPublic p.Collaborative with
      | (.error err, st) =>
        some ⟨st, w1.trace ++ [.call (.createPlaylistForUser userID newName
            ("Fixed copy of " ++ p.Name) p.IsPublic p.Collaborative),
          .log ("Error creating playlist " ++ newName ++ ": " ++ err ++ "\n")]⟩
      | (.ok newPlaylist, st) =>
        let total := allTracks.length
        let w2 : World σ := ⟨st, w1.trace ++ [.call (.createPlaylistForUser userID newName
            ("Fixed copy of " ++ p.Name) p.IsPublic p.Collaborative),
          .print ("Created new playlist: " ++ newName ++ "\n"),
          .print ("Starting transfer of " ++ toString total ++
            " tracks (this will take about " ++ toString total ++ " seconds)...\n")]⟩
        some ((addLoop c newPlaylist total allTracks 0 w2).emit
          [.print "\nPlaylist processing complete.\n"])

/-! ## The selection part of `main` -/

/-- How the selection part of `main` ends. -/
inductive Outcome (σ : Type) where
  | finished (w : World σ)
  | fatal (w : World σ)
  | panicked (w : World σ)

/-- The loop `for _, index := range selectedIndices` of `main`; an index
outside `playlists` makes the lookup panic. -/
def processSelected {σ : Type} (fuel : Nat) (c : Client σ) (userID : String)
    (playlists : List SimplePlaylist) : List Int → World σ → Option (Outcome σ)
  | [], w => some (.finished w)
  | index :: rest, w =>
    if index < 0 then some (.panicked w)
    else
      match playlists[index.toNat]? with
      | none => some (.panicked w)
      | some originalPlaylist =>
        match processPlaylist fuel c w userID originalPlaylist with
        | none => none
        | some w1 => processSelected fuel c userID playlists rest w1

/-- The end of `main`, from the call of `parseInput` to the final message. -/
def mainSelection {σ : Type} (fuel : Nat) (c : Client σ) (userID : String)
    (playlists : List SimplePlaylist) (input : String) (w : World σ) : Option (Outcome σ) :=
  match parseInput input playlists.length with
  | .error err => some (.fatal (w.emit [.log ("Input error: " ++ err.message)]))
  | .ok selectedIndices =>
    match processSelected fuel c userID playlists selectedIndices w with
    | some (.finished w1) => some (.finished (w1.emit [.print "\nDone!\n"]))
    | r => r

/-! ## The `/callback` handler of `main` -/

/-- An `oauth2.Token`. -/
structure Token where
  AccessToken : String
  deriving DecidableEq, Repr

/-- The part of `*http.Request` read by the handler: its form values. -/
structure Request where
  form : List (String × String)
  deriving DecidableEq, Repr

/-- The method `r.FormValue`: the first value of the key, or the empty string. -/
def Request.FormValue (r : Request) (key : String) : String :=
  match r.form.find? (fun kv => kv.1 == key) with
  | some kv => kv.2
  | none => ""

/-- What the handler does with one request: the status and body it writes to
the response writer, whether it then ends the process with `log.Fatal` (so
that what was written may never be sent), and the token of the client it sends
on the channel. -/
structure HandlerResult where
  status : Nat
  body : String
  exits : Bool
  delivered : Option Token
  deriving DecidableEq, Repr

/-- The handler registered for `/callback`.  The library method `auth.Token`
is a parameter: it receives the expected state and the request. -/
def callbackHandler (authToken : String → Request → Except String Token) (state : String)
    (r : Request) : HandlerResult :=
  match authToken state r with
  | .error _ => ⟨403, "Couldn't get token\n", true, none⟩
  | .ok token =>
    let st := r.FormValue "state"
    if st ≠ state then ⟨404, "404 page not found\n", true, none⟩
    else ⟨200, "Login Completed! You can close this window.", false, some token⟩

/-! ## Specification-side notions -/

/-- A token as the claim describes it: empty, or the decimal rendering of a
natural number. -/
def renderToken : Option Nat → List Char
  | none => []
  | some k => (Nat.repr k).data

/-- The IDs of the track entries of an item list, in order: what a complete
fetch is expected to accumulate. -/
def trackIDs (L : List PlaylistItem) : List ID :=
  L.filterMap fun item => item.Track.map fun track => track.ID

/-- The run of page requests in which the first `k` requests, starting in
state `st` at `offset`, each return a page that is not short, and the next
request fails. -/
def failsAfterPages {σ : Type} (c : Client σ) (p : SimplePlaylist) (limit : Nat) :
    Nat → σ → Nat → Bool
  | 0, st, offset =>
    match c.GetPlaylistItems st p.ID limit offset with
    | (.error _, _) => true
    | (.ok _, _) => false
  | k + 1, st, offset =>
    match c.GetPlaylistItems st p.ID limit offset with
    | (.error _, _) => false
    | (.ok items, st1) =>
      !decide (items.length < limit) && failsAfterPages c p limit k st1 (offset + limit)

/-- The state of the remote service after it has received, one after the
other, an append request for each track of the list against `playlistID`. -/
def runAppends {σ : Type} (c : Client σ) (playlistID : ID) : List ID → σ → σ
  | [], st => st
  | trackID :: rest, st =>
    runAppends c playlistID rest (c.AddTracksToPlaylist st playlistID trackID).2

/-- The replies of the remote service to these append requests, each with the
track it answers. -/
def appendReplies {σ : Type} (c : Client σ) (playlistID : ID) :
    List ID → σ → List (ID × Except String String)
  | [], _ => []
  | trackID :: rest, st =>
    (trackID, (c.AddTracksToPlaylist st playlistID trackID).1) ::
      appendReplies c playlistID rest (c.AddTracksToPlaylist st playlistID trackID).2

/-- The lines handed to the logger in a trace, in order. -/
def logged (tr : List Event) : List String :=
  tr.filterMap fun e => match e with
    | .log s => some s
    | _ => none

/-- The warnings owed for a list of replies: one line for each reply that is a
failure, naming the track, and none for a success. -/
def failureWarnings (playlistName : String) (replies : List (ID × Except String String)) :
    List String :=
  replies.filterMap fun tr => match tr.2 with
    | .error err =>
      some ("Failed to add track " ++ tr.1 ++ " to playlist " ++ playlistName ++ ": " ++
        err ++ "\n")
    | .ok _ => none

/-! ## Example collaborators -/

/-- A remote service that serves the fixed item list `L` for every playlist,
creates playlists with the ID `new-playlist`, and accepts every track. -/
def listClient (L : List PlaylistItem) : Client Unit where
  GetPlaylistItems := fun st _ limit offset => (.ok ((L.drop offset).take limit), st)
  CreatePlaylistForUser := fun st _ name _ _ _ => (.ok ⟨"new-playlist", name⟩, st)
  AddTracksToPlaylist := fun st _ _ => (.ok "random-snapshot-id", st)

/-- The two tracks of the playlist "My Jam". -/
def myJamItems : List PlaylistItem :=
  [⟨some ⟨"track-A"⟩⟩, ⟨some ⟨"track-B"⟩⟩]

/-- The playlist "My Jam": public, not collaborative. -/
def myJam : SimplePlaylist :=
  ⟨"old-playlist", "My Jam", true, false⟩

/-- A remote service whose state is the list of the requests it has received:
it serves the item list `L`, creates playlists with the ID `new-playlist`, and
rejects the append of every track listed in `failing`. -/
def recordingClient (L : List PlaylistItem) (failing : List ID) : Client (List Call) where
  GetPlaylistItems := fun st playlistID limit offset =>
    (.ok ((L.drop offset).take limit), st ++ [.getPlaylistItems playlistID limit offset])
  CreatePlaylistForUser := fun st userID name description isPublic collaborative =>
    (.ok ⟨"new-playlist", name⟩,
      st ++ [.createPlaylistForUser userID name description isPublic collaborative])
  AddTracksToPlaylist := fun st playlistID trackID =>
    (if trackID ∈ failing then .error "rate limited" else .ok "random-snapshot-id",
      st ++ [.addTracksToPlaylist playlistID trackID])

/-- A remote service that counts the page requests in its state: it serves `k`
full pages of 50 tracks and fails every later request. -/
def brokenClient (k : Nat) : Client Nat where
  GetPlaylistItems := fun st _ _ _ =>
    if st < k then (.ok (List.replicate 50 ⟨some ⟨"track"⟩⟩), st + 1)
    else (.error "connection reset", st + 1)
  CreatePlaylistForUser := fun st _ name _ _ _ => (.ok ⟨"new-playlist", name⟩, st)
  AddTracksToPlaylist := fun st _ _ => (.ok "random-snapshot-id", st)

/-- A playlist of 50 items: 49 tracks and one episode. -/
def fiftyItems : List PlaylistItem :=
  List.replicate 49 ⟨some ⟨"track"⟩⟩ ++ [⟨none⟩]

/-! ## Correctness of `reverseIDs` -/

theorem getElem?_at_length (pre rest : List ID) (x : ID) :
    (pre ++ x :: rest)[pre.length]? = some x := by
  induction pre with
  | nil => simp
  | cons a pre ih => simpa using ih

theorem set_at_length (pre rest : List ID) (x y : ID) :
    (pre ++ x :: rest).set pre.length y = pre ++ y :: rest := by
  induction pre with
  | nil => rfl
  | cons a pre ih => simp [ih]

/-- Swapping the two ends of the middle segment. -/
theorem swapAt_ends (pre mid post : List ID) (x y : ID) :
    swapAt (pre ++ x :: (mid ++ y :: post)) pre.length (pre.length + mid.length + 1)
      = pre ++ y :: (mid ++ x :: post) := by
  have e : ∀ a b : ID, pre ++ a :: (mid ++ b :: post) = (pre ++ a :: mid) ++ b :: post := by
    intro a b; simp
  have hl : ∀ a : ID, (pre ++ a :: mid).length = pre.length + mid.length + 1 := by
    intro a; simp; omega
  have h1 : (pre ++ x :: (mid ++ y :: post))[pre.length]? = some x :=
    getElem?_at_length pre _ x
  have h2 : (pre ++ x :: (mid ++ y :: post))[pre.length + mid.length + 1]? = some y := by
    rw [e, ← hl x]; exact getElem?_at_length _ _ y
  unfold swapAt
  rw [h1, h2]
  simp only
  rw [set_at_length, e y y, ← hl y, set_at_length, ← e]

/-- The loop started on the two ends of a segment `mid` reverses that segment
and leaves the rest of the slice alone, as soon as the fuel covers half of the
segment. -/
theorem reverseLoop_spec (fuel : Nat) : ∀ (pre mid post : List ID),
    mid.length ≤ 2 * fuel + 1 →
    reverseLoop fuel (pre ++ mid ++ post) pre.length (pre.length + mid.length - 1)
      = pre ++ mid.reverse ++ post := by
  induction fuel with
  | zero =>
    intro pre mid post h
    match mid, h with
    | [], _ => rfl
    | [x], _ => rfl
  | succ fuel ih =>
    intro pre mid post h
    match mid, h with
    | [], _ => simp [reverseLoop]
    | [x], _ => simp [reverseLoop]
    | x :: z :: rest, h =>
      obtain ⟨mid', y, hy⟩ : ∃ mid' y, z :: rest = mid' ++ [y] := by
        rcases List.eq_nil_or_concat (z :: rest) with h0 | ⟨l, b, hb⟩
        · cases h0
        · exact ⟨l, b, by simpa using hb⟩
      rw [hy]
      have hlen : mid'.length + 1 = rest.length + 1 := by
        have := congrArg List.length hy
        simpa using this.symm
      have hlt : pre.length < pre.length + (x :: (mid' ++ [y])).length - 1 := by
        simp
      rw [reverseLoop, if_pos hlt]
      have e1 : pre ++ x :: (mid' ++ [y]) ++ post = pre ++ x :: (mid' ++ y :: post) := by simp
      have e2 : pre.length + (x :: (mid' ++ [y])).length - 1 = pre.length + mid'.length + 1 := by
        simp; omega
      rw [e1, e2, swapAt_ends]
      have e3 : pre ++ y :: (mid' ++ x :: post) = (pre ++ [y]) ++ mid' ++ (x :: post) := by simp
      have e4 : pre.length + 1 = (pre ++ [y]).length := by simp
      have e5 : pre.length + mid'.length + 1 - 1 = (pre ++ [y]).length + mid'.length - 1 := by
        simp
      rw [e3, e4, e5, ih (pre ++ [y]) mid' (x :: post) (by simp at h; omega)]
      simp

/-- The swap loop computes the reversed list. -/
theorem reverseIDs_eq_reverse (s : List ID) : reverseIDs s = s.reverse := by
  unfold reverseIDs
  split
  · next h => rw [List.length_eq_zero.mp h]; rfl
  · have := reverseLoop_spec s.length [] s [] (by omega)
    simpa using this

/-- C3: `reverseIDs s` has the length of `s`, its entry at every index
`i < len(s)` is the entry of `s` at `len(s)-1-i`, so its first entry is the
last entry of a non-empty `s`; `["1","2","3"]` gives `["3","2","1"]` and a
one-element sequence is returned unchanged. -/
theorem reverseIDs_index (s : List ID) :
    (reverseIDs s).length = s.length ∧
    (∀ i, i < s.length →
      ∃ x, s[s.length - 1 - i]? = some x ∧ (reverseIDs s)[i]? = some x) ∧
    (s ≠ [] → ∃ x, s[s.length - 1]? = some x ∧ (reverseIDs s)[0]? = some x) ∧
    reverseIDs ["1", "2", "3"] = ["3", "2", "1"] ∧
    (∀ x : ID, reverseIDs [x] = [x]) := by
  have hidx : ∀ i, i < s.length →
      ∃ x, s[s.length - 1 - i]? = some x ∧ (reverseIDs s)[i]? = some x := by
    intro i hi
    have hj : s.length - 1 - i < s.length := by omega
    refine ⟨s[s.length - 1 - i], List.getElem?_eq_getElem hj, ?_⟩
    rw [reverseIDs_eq_reverse, List.getElem?_reverse hi, List.getElem?_eq_getElem hj]
  refine ⟨by rw [reverseIDs_eq_reverse, List.length_reverse], hidx, ?_, by decide, ?_⟩
  · intro hne
    have hpos : 0 < s.length := List.length_pos.mpr hne
    simpa using hidx 0 hpos
  · intro x
    rfl

/-- Witness of C3 on the three IDs of the test. -/
theorem reverseIDs_index_witness :
    (0 < ["1", "2", "3"].length ∧
      ∃ x, ["1", "2", "3"][["1", "2", "3"].length - 1 - 0]? = some x ∧
        (reverseIDs ["1", "2", "3"])[0]? = some x) ∧
    (["1", "2", "3"] ≠ [] ∧
      ∃ x, ["1", "2", "3"][["1", "2", "3"].length - 1]? = some x ∧
        (reverseIDs ["1", "2", "3"])[0]? = some x) :=
  ⟨⟨by decide, (reverseIDs_index ["1", "2", "3"]).2.1 0 (by decide)⟩,
   ⟨by decide, (reverseIDs_index ["1", "2", "3"]).2.2.1 (by decide)⟩⟩

/-- C4: reversing twice gives the sequence back, for every sequence including
the empty one, and the reverse of the empty sequence is empty. -/
theorem reverseIDs_involutive :
    (∀ s : List ID, reverseIDs (reverseIDs s) = s) ∧ reverseIDs [] = [] := by
  refine ⟨fun s => ?_, rfl⟩
  rw [reverseIDs_eq_reverse, reverseIDs_eq_reverse, List.reverse_reverse]

/-! ## The number scanner on decimal renderings -/

theorem digitChar_spec (m : Nat) (hm : m < 10) :
    isDigit (Nat.digitChar m) = true ∧ (Nat.digitChar m).toNat - 48 = m ∧
      isSpace (Nat.digitChar m) = false ∧ Nat.digitChar m ≠ Char.ofNat 43 ∧
      Nat.digitChar m ≠ Char.ofNat 45 ∧ Nat.digitChar m ≠ Char.ofNat 10 ∧
      Nat.digitChar m ≠ Char.ofNat 13 := by
  interval_cases m <;> decide

theorem digitsValue_append (ds : List Char) (c : Char) :
    digitsValue (ds ++ [c]) = digitsValue ds * 10 + (c.toNat - 48) := by
  simp [digitsValue, List.foldl_append]

/-- With fuel above `n`, the digit printer of the standard library puts in
front of its accumulator a non-empty run of digit characters of value `n`. -/
theorem toDigitsCore_decimal (fuel n : Nat) (acc : List Char) (hfuel : n < fuel) :
    ∃ run : List Char, run ≠ [] ∧ digitsValue run = n ∧
      (∀ c ∈ run, ∃ m, m < 10 ∧ c = Nat.digitChar m) ∧
      Nat.toDigitsCore 10 fuel n acc = run ++ acc := by
  induction fuel generalizing n acc with
  | zero => omega
  | succ fuel ih =>
    have hd := digitChar_spec (n % 10) (Nat.mod_lt n (by decide))
    unfold Nat.toDigitsCore
    by_cases hq : n / 10 = 0
    · refine ⟨[Nat.digitChar (n % 10)], by simp, ?_, ?_, by simp [hq]⟩
      · simp only [digitsValue, List.foldl_cons, List.foldl_nil, hd.2.1]
        omega
      · intro c hc
        exact ⟨n % 10, Nat.mod_lt n (by decide), by simpa using hc⟩
    · obtain ⟨run, hne, hval, hdig, hrun⟩ :=
        ih (n / 10) (Nat.digitChar (n % 10) :: acc) (by omega)
      refine ⟨run ++ [Nat.digitChar (n % 10)], by simp, ?_, ?_, by simp [hq, hrun]⟩
      · rw [digitsValue_append, hval, hd.2.1]
        omega
      · intro c hc
        rcases List.mem_append.mp hc with h | h
        · exact hdig c h
        · exact ⟨n % 10, Nat.mod_lt n (by decide), by simpa using h⟩

theorem repr_spec (k : Nat) :
    ∃ ds : List Char, (Nat.repr k).data = ds ∧ ds ≠ [] ∧
      (∀ c ∈ ds, ∃ m, m < 10 ∧ c = Nat.digitChar m) ∧ digitsValue ds = k := by
  obtain ⟨ds, hne, hval, hdig, hds⟩ := toDigitsCore_decimal (k + 1) k [] (by omega)
  refine ⟨ds, ?_, hne, hdig, hval⟩
  simp [Nat.repr, Nat.toDigits, hds, List.asString]



theorem span_digits (ds : List Char) (hdig : ∀ c ∈ ds, ∃ m, m < 10 ∧ c = Nat.digitChar m) :
    ds.span isDigit = (ds, []) := by
  have hall : ∀ c ∈ ds, isDigit c = true := by
    intro c hc
    obtain ⟨m, hm, rfl⟩ := hdig c hc
    exact (digitChar_spec m hm).1
  rw [List.span_eq_take_drop, List.takeWhile_eq_self_iff.mpr hall]
  congr 1
  exact List.dropWhile_eq_nil_iff.mpr hall

theorem skipSpace_digits (ds : List Char)
    (hdig : ∀ c ∈ ds, ∃ m, m < 10 ∧ c = Nat.digitChar m) : skipSpace ds = .ok ds := by
  cases ds with
  | nil => rfl
  | cons c rest =>
    obtain ⟨m, hm, rfl⟩ := hdig c (by simp)
    obtain ⟨-, -, hsp, -, -, h10, h13⟩ := digitChar_spec m hm
    simp [skipSpace, hsp, h10, h13]

theorem scanInt_digits (ds : List Char) (hne : ds ≠ [])
    (hdig : ∀ c ∈ ds, ∃ m, m < 10 ∧ c = Nat.digitChar m) :
    scanInt ds = parseInt64 false ds := by
  cases ds with
  | nil => exact absurd rfl hne
  | cons c rest =>
    obtain ⟨m, hm, hc⟩ := hdig c (by simp)
    obtain ⟨-, -, -, h43, h45, -, -⟩ := digitChar_spec m hm
    rw [← hc] at h43 h45
    have hb43 : (c == Char.ofNat 43) = false := beq_eq_false_iff_ne.mpr h43
    have hb45 : (c == Char.ofNat 45) = false := beq_eq_false_iff_ne.mpr h45
    simp only [scanInt, hb43, hb45, Bool.or_self, Bool.false_eq_true, if_false]
    rw [span_digits _ hdig]

theorem scanInt_minus_digits (ds : List Char) (hne : ds ≠ [])
    (hdig : ∀ c ∈ ds, ∃ m, m < 10 ∧ c = Nat.digitChar m) :
    scanInt (Char.ofNat 45 :: ds) = parseInt64 true ds := by
  cases ds with
  | nil => exact absurd rfl hne
  | cons c rest =>
    simp only [scanInt, beq_self_eq_true, Bool.or_true, if_true]
    rw [span_digits _ hdig]

/-- Scanning the decimal rendering of a natural number. -/
theorem sscanfInt_repr (k : Nat) :
    sscanfInt (Nat.repr k).data = if k ≥ 2 ^ 63 then .error .outOfRange else .ok (k : Int) := by
  obtain ⟨ds, hds, hne, hdig, hval⟩ := repr_spec k
  rw [hds]
  simp only [sscanfInt, skipSpace_digits ds hdig, scanInt_digits ds hne hdig, parseInt64, hval]
  simp

/-- Scanning a minus sign followed by the decimal rendering of a natural number. -/
theorem sscanfInt_minus_repr (k : Nat) :
    sscanfInt (Char.ofNat 45 :: (Nat.repr k).data)
      = if k > 2 ^ 63 then .error .outOfRange else .ok (-(k : Int)) := by
  obtain ⟨ds, hds, hne, hdig, hval⟩ := repr_spec k
  rw [hds]
  have hskip : skipSpace (Char.ofNat 45 :: ds) = .ok (Char.ofNat 45 :: ds) := by
    have h1 : isSpace (Char.ofNat 45) = false := by decide
    have h2 : Char.ofNat 45 ≠ Char.ofNat 10 := by decide
    have h3 : Char.ofNat 45 ≠ Char.ofNat 13 := by decide
    simp [skipSpace, h1, h2, h3]
  simp only [sscanfInt, hskip, scanInt_minus_digits ds hne hdig, parseInt64, hval]
  simp



/-! ## The loops of `processPlaylist` -/

theorem calls_append (a b : List Event) : calls (a ++ b) = calls a ++ calls b := by
  simp [calls, List.filterMap_append]

theorem appendTracks_eq (items : List PlaylistItem) :
    ∀ allTracks, appendTracks allTracks items = allTracks ++ trackIDs items := by
  induction items with
  | nil => intro allTracks; simp [appendTracks, trackIDs]
  | cons item items ih =>
    intro allTracks
    cases h : item.Track with
    | none => simp [appendTracks, h, ih, trackIDs]
    | some track => simp [appendTracks, h, ih, trackIDs]

theorem trackIDs_append (a b : List PlaylistItem) :
    trackIDs (a ++ b) = trackIDs a ++ trackIDs b := by
  simp [trackIDs, List.filterMap_append]

/-- The append loop issues one call per track, whatever the calls return. -/
theorem addLoop_calls {σ : Type} (c : Client σ) (newPlaylist : FullPlaylist) (total : Nat)
    (r : List ID) : ∀ (i : Nat) (w : World σ),
    calls (addLoop c newPlaylist total r i w).trace
      = calls w.trace ++ r.map (fun trackID => Call.addTracksToPlaylist newPlaylist.ID trackID) := by
  induction r with
  | nil => intro i w; simp [addLoop]
  | cons trackID rest ih =>
    intro i w
    rw [addLoop, ih]
    rcases h : c.AddTracksToPlaylist w.st newPlaylist.ID trackID with ⟨res, st⟩
    cases res <;> simp [World.emit, calls]

theorem logged_append (a b : List Event) : logged (a ++ b) = logged a ++ logged b := by
  simp [logged, List.filterMap_append]

/-- The append loop hands every track to the remote service: its final state
is the state of the service after one append request per track, in order. -/
theorem addLoop_st {σ : Type} (c : Client σ) (newPlaylist : FullPlaylist) (total : Nat)
    (r : List ID) : ∀ (i : Nat) (w : World σ),
    (addLoop c newPlaylist total r i w).st = runAppends c newPlaylist.ID r w.st := by
  induction r with
  | nil => intro i w; simp [addLoop, runAppends]
  | cons trackID rest ih =>
    intro i w
    rw [addLoop, ih, runAppends]
    rcases h : c.AddTracksToPlaylist w.st newPlaylist.ID trackID with ⟨res, st⟩
    cases res <;> simp [World.emit]

/-- The append loop logs one warning for each append that the remote service
rejects, and nothing else. -/
theorem addLoop_logged {σ : Type} (c : Client σ) (newPlaylist : FullPlaylist) (total : Nat)
    (r : List ID) : ∀ (i : Nat) (w : World σ),
    logged (addLoop c newPlaylist total r i w).trace = logged w.trace ++
      failureWarnings newPlaylist.Name (appendReplies c newPlaylist.ID r w.st) := by
  induction r with
  | nil => intro i w; simp [addLoop, appendReplies, failureWarnings]
  | cons trackID rest ih =>
    intro i w
    rw [addLoop, ih, appendReplies]
    rcases h : c.AddTracksToPlaylist w.st newPlaylist.ID trackID with ⟨res, st⟩
    cases res <;> simp [World.emit, logged, failureWarnings]

/-- The requests of a fetch loop that serves the item list `L`. -/
theorem fetchLoop_serves {σ : Type} (c : Client σ) (p : SimplePlaylist) (L : List PlaylistItem)
    (hserve : ∀ st offset, (c.GetPlaylistItems st p.ID 50 offset).1 = .ok ((L.drop offset).take 50))
    (fuel : Nat) : ∀ (k : Nat) (w : World σ) (allTracks : List ID),
    50 * k ≤ L.length → L.length / 50 < k + fuel →
    ∃ w1, fetchLoop c p 50 fuel w (50 * k) allTracks
        = some (some (allTracks ++ trackIDs (L.drop (50 * k))), w1) ∧
      w1.trace = w.trace ++ (List.range (L.length / 50 + 1 - k)).map
        (fun j => Event.call (.getPlaylistItems p.ID 50 (50 * (k + j)))) := by
  induction fuel with
  | zero => intro k w allTracks h1 h2; omega
  | succ fuel ih =>
    intro k w allTracks h1 h2
    rcases h : c.GetPlaylistItems w.st p.ID 50 (50 * k) with ⟨res, st⟩
    have hres := hserve w.st (50 * k)
    rw [h] at hres
    simp only at hres
    subst hres
    rw [fetchLoop, h]
    simp only [appendTracks_eq]
    by_cases hshort : ((L.drop (50 * k)).take 50).length < 50
    · rw [if_pos hshort]
      have hlen : (L.drop (50 * k)).length < 50 := by
        simp only [List.length_take, List.length_drop] at hshort ⊢
        omega
      have htake : (L.drop (50 * k)).take 50 = L.drop (50 * k) :=
        List.take_of_length_le (by omega)
      have hk : L.length / 50 + 1 - k = 1 := by
        simp only [List.length_drop] at hlen
        omega
      refine ⟨_, by rw [htake], ?_⟩
      simp [hk, List.range_succ]
    · rw [if_neg hshort]
      have hlen : 50 ≤ (L.drop (50 * k)).length := by
        simp only [List.length_take, List.length_drop] at hshort ⊢
        omega
      simp only [List.length_drop] at hlen
      obtain ⟨w1, hw1, htr⟩ := ih (k + 1)
        ⟨st, w.trace ++ [.call (.getPlaylistItems p.ID 50 (50 * k))]⟩
        (allTracks ++ trackIDs ((L.drop (50 * k)).take 50)) (by omega) (by omega)
      refine ⟨w1, ?_, ?_⟩
      · have e : 50 * k + 50 = 50 * (k + 1) := by ring
        rw [e, hw1]
        have hsplit : L.drop (50 * k)
            = (L.drop (50 * k)).take 50 ++ L.drop (50 * (k + 1)) := by
          have := (List.take_append_drop 50 (L.drop (50 * k))).symm
          rw [List.drop_drop] at this
          rw [e] at this
          exact this
        conv_rhs => rw [hsplit, trackIDs_append]
        simp
      · rw [htr]
        have hk : L.length / 50 + 1 - k = (L.length / 50 + 1 - (k + 1)) + 1 := by omega
        rw [hk, List.range_succ_eq_map]
        simp [List.map_map, Function.comp_def]
        intro a _
        omega



/-! ## Correctness of `parseInput` -/

theorem renderToken_some_ne_nil (k : Nat) : renderToken (some k) ≠ [] := by
  obtain ⟨ds, hds, hne, -, -⟩ := repr_spec k
  simpa [renderToken, hds] using hne

/-- The loop of `parseInput` on parts that are empty or render an index in
range. -/
theorem parseLoop_valid (total : Int) (hint : total < 2 ^ 63) :
    ∀ (parts : List (List Char)) (toks : List (Option Nat)) (indices : List Int),
    parts.map trimSpace = toks.map renderToken →
    (∀ k, some k ∈ toks → 1 ≤ (k : Int) ∧ (k : Int) ≤ total) →
    parseLoop total parts indices
      = .ok (indices ++ toks.filterMap (fun t => t.map (fun k => (k : Int) - 1))) := by
  intro parts
  induction parts with
  | nil =>
    intro toks indices h _
    cases toks with
    | nil => simp [parseLoop]
    | cons t ts => simp at h
  | cons s parts ih =>
    intro toks indices h hr
    cases toks with
    | nil => simp at h
    | cons t ts =>
      simp only [List.map_cons, List.cons.injEq] at h
      obtain ⟨hs, hrest⟩ := h
      have hr' : ∀ k, some k ∈ ts → 1 ≤ (k : Int) ∧ (k : Int) ≤ total :=
        fun k hk => hr k (List.mem_cons_of_mem _ hk)
      cases t with
      | none =>
        have hs' : trimSpace s = [] := by simpa [renderToken] using hs
        simp [parseLoop, hs', ih ts indices hrest hr']
      | some k =>
        obtain ⟨h1, h2⟩ := hr k (by simp)
        have hk : ¬ k ≥ 2 ^ 63 := by
          intro hge
          have : (2 : Int) ^ 63 ≤ (k : Int) := by exact_mod_cast hge
          omega
        have hscan : sscanfInt (trimSpace s) = .ok (k : Int) := by
          rw [hs, renderToken, sscanfInt_repr, if_neg hk]
        have hne : trimSpace s ≠ [] := by rw [hs]; exact renderToken_some_ne_nil k
        have hrange : ¬ ((k : Int) < 1 ∨ (k : Int) > total) := by omega
        rw [parseLoop]
        simp only [hne, if_false, hscan, hrange]
        rw [ih ts (indices ++ [(k : Int) - 1]) hrest hr']
        simp

/-- C6: when every comma-separated token of the trimmed input is, after
trimming, empty or the decimal rendering of some `k` with `1 ≤ k ≤ total`,
`parseInput` succeeds with the list of the `k - 1` of the non-empty tokens, in
the order given, duplicates kept (`total` is a Go `int`, below `2^63`). -/
theorem parseInput_valid (input : String) (total : Int) (toks : List (Option Nat))
    (hint : total < 2 ^ 63)
    (hne : trimSpace input.data ≠ [])
    (htoks : (splitComma (trimSpace input.data)).map trimSpace = toks.map renderToken)
    (hrange : ∀ k, some k ∈ toks → 1 ≤ (k : Int) ∧ (k : Int) ≤ total) :
    parseInput input total = .ok (toks.filterMap (fun t => t.map (fun k => (k : Int) - 1))) := by
  unfold parseInput
  simp only [hne, if_false]
  rw [parseLoop_valid total hint _ toks [] htoks hrange]
  simp

/-- Witness of C6: the selections of the tests among five playlists, and one
with an empty token and a repeated index. -/
theorem parseInput_valid_witness :
    parseInput "1" 5 = .ok [0] ∧ parseInput "1, 3" 5 = .ok [0, 2] ∧
    parseInput "3, 1" 5 = .ok [2, 0] ∧ parseInput " 3, ,1,3 " 5 = .ok [2, 0, 2] :=
  ⟨parseInput_valid "1" 5 [some 1] (by decide) (by decide) (by rfl) (by
      intro k hk
      simp only [List.mem_singleton, Option.some.injEq] at hk
      subst hk; decide),
   parseInput_valid "1, 3" 5 [some 1, some 3] (by decide) (by decide) (by rfl) (by
      intro k hk
      simp only [List.mem_cons, Option.some.injEq, List.mem_singleton, List.not_mem_nil,
        or_false] at hk
      rcases hk with h | h <;> subst h <;> decide),
   parseInput_valid "3, 1" 5 [some 3, some 1] (by decide) (by decide) (by rfl) (by
      intro k hk
      simp only [List.mem_cons, Option.some.injEq, List.mem_singleton, List.not_mem_nil,
        or_false] at hk
      rcases hk with h | h <;> subst h <;> decide),
   parseInput_valid " 3, ,1,3 " 5 [some 3, none, some 1, some 3] (by decide) (by decide)
    (by rfl) (by
      intro k hk
      simp only [List.mem_cons, Option.some.injEq, List.mem_singleton, false_or,
        List.not_mem_nil, or_false, reduceCtorEq] at hk
      rcases hk with h | h | h <;> subst h <;> decide)⟩

/-- The loop of `parseInput` fails as soon as one part is a non-empty token
that the scanner rejects or reads as a number out of range. -/
theorem parseLoop_fails (total : Int) :
    ∀ (parts : List (List Char)) (indices : List Int) (s : List Char), s ∈ parts →
    trimSpace s ≠ [] →
    (∀ v, sscanfInt (trimSpace s) = .ok v → v < 1 ∨ v > total) →
    ∃ e, parseLoop total parts indices = .error e := by
  intro parts
  induction parts with
  | nil => intro indices s hs; simp at hs
  | cons a parts ih =>
    intro indices s hs hne hbad
    rw [parseLoop]
    by_cases ha : trimSpace a = []
    · have hmem : s ∈ parts := by
        rcases List.mem_cons.mp hs with h | h
        · subst h; exact absurd ha hne
        · exact h
      simp only [ha, if_true]
      exact ih indices s hmem hne hbad
    · simp only [ha, if_false]
      cases hscan : sscanfInt (trimSpace a) with
      | error e => exact ⟨_, rfl⟩
      | ok val =>
        by_cases hr : val < 1 ∨ val > total
        · simp only [hr, if_true]; exact ⟨_, rfl⟩
        · simp only [hr, if_false]
          have hmem : s ∈ parts := by
            rcases List.mem_cons.mp hs with h | h
            · subst h; exact absurd (hbad val hscan) hr
            · exact h
          exact ih _ s hmem hne hbad

/-- Every index returned by the loop of `parseInput` is in range. -/
theorem parseLoop_range (total : Int) :
    ∀ (parts : List (List Char)) (indices result : List Int),
    parseLoop total parts indices = .ok result →
    (∀ i ∈ indices, 0 ≤ i ∧ i < total) → ∀ i ∈ result, 0 ≤ i ∧ i < total := by
  intro parts
  induction parts with
  | nil =>
    intro indices result h hin
    simp only [parseLoop, Except.ok.injEq] at h
    subst h; exact hin
  | cons a parts ih =>
    intro indices result h hin
    rw [parseLoop] at h
    by_cases ha : trimSpace a = []
    · simp only [ha, if_true] at h
      exact ih indices result h hin
    · simp only [ha, if_false] at h
      cases hscan : sscanfInt (trimSpace a) with
      | error e => rw [hscan] at h; simp at h
      | ok val =>
        rw [hscan] at h
        by_cases hr : val < 1 ∨ val > total
        · simp [hr] at h
        · simp only [hr, if_false] at h
          refine ih _ result h ?_
          intro i hi
          rcases List.mem_append.mp hi with h1 | h1
          · exact hin i h1
          · simp only [List.mem_singleton] at h1
            subst h1; omega

/-- The decimal rendering of an integer is read back by the scanner, or
rejected as out of the 64-bit range. -/
theorem sscanfInt_toString (k : Int) :
    (toString k).data ≠ [] ∧
      ∀ v, sscanfInt (toString k).data = .ok v → v = k := by
  cases k with
  | ofNat m =>
    have e : (toString (Int.ofNat m)).data = (Nat.repr m).data := rfl
    rw [e]
    refine ⟨renderToken_some_ne_nil m, ?_⟩
    intro v hv
    rw [sscanfInt_repr] at hv
    split at hv
    · simp at hv
    · simp only [Except.ok.injEq] at hv
      rw [← hv]; rfl
  | negSucc m =>
    have e : (toString (Int.negSucc m)).data = Char.ofNat 45 :: (Nat.repr (m + 1)).data := rfl
    rw [e]
    refine ⟨by simp, ?_⟩
    intro v hv
    rw [sscanfInt_minus_repr] at hv
    split at hv
    · simp at hv
    · simp only [Except.ok.injEq] at hv
      rw [← hv]; rfl

/-- C7: if a token denotes an index below 1 or above `total` (it is the
decimal rendering of such an integer, or the scanner reads such a value from
it), `parseInput` returns an error and no indices, also when earlier tokens
were valid; so every index returned on success is at least 0 and below
`total`, and the lookups `playlists[index]` of `main` are in bounds (the
inputs 6 and 0 with five playlists are rejected). -/
theorem parseInput_out_of_range :
    (∀ (input : String) (total : Int) (tok : List Char) (k : Int),
      tok ∈ (splitComma (trimSpace input.data)).map trimSpace →
      (k < 1 ∨ k > total) →
      (tok = (toString k).data ∨ sscanfInt tok = .ok k) →
      ∃ e, parseInput input total = .error e) ∧
    (∀ (input : String) (total : Int) (indices : List Int),
      parseInput input total = .ok indices → ∀ i ∈ indices, 0 ≤ i ∧ i < total) ∧
    (∀ (input : String) (playlists : List SimplePlaylist) (indices : List Int),
      parseInput input playlists.length = .ok indices →
      ∀ i ∈ indices, 0 ≤ i ∧ ∃ p, playlists[i.toNat]? = some p) ∧
    parseInput "6" 5 = .error (.outOfRange 6) ∧
    parseInput "0" 5 = .error (.outOfRange 0) ∧
    parseInput "1, 6" 5 = .error (.outOfRange 6) := by
  have hrange : ∀ (input : String) (total : Int) (indices : List Int),
      parseInput input total = .ok indices → ∀ i ∈ indices, 0 ≤ i ∧ i < total := by
    intro input total indices h
    unfold parseInput at h
    by_cases hne : trimSpace input.data = []
    · simp [hne] at h
    · simp only [hne, if_false] at h
      exact parseLoop_range total _ [] indices h (by simp)
  refine ⟨?_, hrange, ?_, by rfl, by rfl, by rfl⟩
  · intro input total tok k htok hk hden
    obtain ⟨s, hs, rfl⟩ := List.mem_map.mp htok
    have hne : trimSpace s ≠ [] := by
      rcases hden with h | h
      · rw [h]; exact (sscanfInt_toString k).1
      · intro h0
        rw [h0] at h
        simp [sscanfInt, skipSpace, scanInt] at h
    have hbad : ∀ v, sscanfInt (trimSpace s) = .ok v → v < 1 ∨ v > total := by
      intro v hv
      rcases hden with h | h
      · rw [h] at hv
        rw [(sscanfInt_toString k).2 v hv]; exact hk
      · rw [h] at hv
        simp only [Except.ok.injEq] at hv
        rw [← hv]; exact hk
    have hin : trimSpace input.data ≠ [] := by
      intro h0
      rw [h0] at hs
      simp only [splitComma, List.mem_singleton] at hs
      subst hs
      exact hne rfl
    unfold parseInput
    simp only [hin, if_false]
    exact parseLoop_fails total _ [] s hs hne hbad
  · intro input playlists indices h i hi
    obtain ⟨h0, h1⟩ := hrange input _ indices h i hi
    refine ⟨h0, ?_⟩
    have hlt : i.toNat < playlists.length := by omega
    exact ⟨playlists[i.toNat], List.getElem?_eq_getElem hlt⟩

/-- Witness of C7: the token 6 after the valid token 1, with five playlists,
and the indices of a successful parse. -/
theorem parseInput_out_of_range_witness :
    (∃ e, parseInput "1, 6" 5 = .error e) ∧ (∀ i ∈ [2, 0], (0 : Int) ≤ i ∧ i < 5) ∧
    (∀ i ∈ [(0 : Int)], 0 ≤ i ∧ ∃ p, [myJam][i.toNat]? = some p) :=
  ⟨parseInput_out_of_range.1 "1, 6" 5 (toString (6 : Int)).data 6 (by decide) (by decide)
      (Or.inl rfl),
   parseInput_out_of_range.2.1 "3, 1" 5 [2, 0] (by rfl),
   parseInput_out_of_range.2.2.1 "1" [myJam] [0] (by rfl)⟩

/-- C8: tokens that start with a number are accepted with whatever follows the
digits ignored: `1abc`, `2 3` and `1.5` are parsed as 1, 2 and 1, while `abc`
is rejected. -/
theorem parseInput_trailing_garbage :
    parseInput "1abc" 5 = .ok [0] ∧ parseInput "2 3" 5 = .ok [1] ∧
    parseInput "1.5" 5 = .ok [0] ∧ parseInput "abc" 5 = .error (.invalidNumber "abc") := by
  refine ⟨by rfl, by rfl, by rfl, by rfl⟩


/-! ## Correctness of `processPlaylist` -/

/-- The events of a fetch loop are page requests, plus one log line when a
request fails. -/
theorem fetchLoop_calls {σ : Type} (c : Client σ) (p : SimplePlaylist) (limit : Nat)
    (fuel : Nat) : ∀ (w : World σ) (offset : Nat) (allTracks : List ID)
      (r : Option (List ID)) (w1 : World σ),
    fetchLoop c p limit fuel w offset allTracks = some (r, w1) →
    ∃ offsets : List Nat, calls w1.trace
      = calls w.trace ++ offsets.map (fun o => Call.getPlaylistItems p.ID limit o) := by
  induction fuel with
  | zero => intro w offset allTracks r w1 h; simp [fetchLoop] at h
  | succ fuel ih =>
    intro w offset allTracks r w1 h
    rw [fetchLoop] at h
    rcases hget : c.GetPlaylistItems w.st p.ID limit offset with ⟨res, st⟩
    rw [hget] at h
    cases res with
    | error err =>
      simp only [Option.some.injEq, Prod.mk.injEq] at h
      obtain ⟨-, rfl⟩ := h
      exact ⟨[offset], by simp [calls]⟩
    | ok items =>
      simp only at h
      by_cases hshort : items.length < limit
      · rw [if_pos hshort] at h
        simp only [Option.some.injEq, Prod.mk.injEq] at h
        obtain ⟨-, rfl⟩ := h
        exact ⟨[offset], by simp [calls]⟩
      · rw [if_neg hshort] at h
        obtain ⟨offsets, ho⟩ := ih _ _ _ r w1 h
        exact ⟨offset :: offsets, by rw [ho]; simp [calls]⟩

/-- What `processPlaylist` does once the fetch has returned a non-empty track
list and the creation has succeeded, whatever the appends return: its calls,
the state in which it leaves the remote service, and its log. -/
theorem processPlaylist_calls {σ : Type} (fuel : Nat) (c : Client σ) (w : World σ)
    (userID : String) (p : SimplePlaylist) (t : List ID) (w1 : World σ)
    (newPlaylist : FullPlaylist) (st : σ)
    (hfetch : fetchLoop c p 50 fuel
      (w.emit [.print ("\nProcessing playlist: " ++ p.Name ++ "\n")]) 0 [] = some (some t, w1))
    (hne : t ≠ [])
    (hcreate : c.CreatePlaylistForUser w1.st userID (p.Name ++ " Fixed")
      ("Fixed copy of " ++ p.Name) p.IsPublic p.Collaborative = (.ok newPlaylist, st)) :
    ∃ w2, processPlaylist fuel c w userID p = some w2 ∧
      calls w2.trace = calls w1.trace ++
        Call.createPlaylistForUser userID (p.Name ++ " Fixed") ("Fixed copy of " ++ p.Name)
          p.IsPublic p.Collaborative ::
        (reverseIDs t).map (fun trackID => Call.addTracksToPlaylist newPlaylist.ID trackID) ∧
      w2.st = runAppends c newPlaylist.ID (reverseIDs t) st ∧
      logged w2.trace = logged w1.trace ++
        failureWarnings newPlaylist.Name (appendReplies c newPlaylist.ID (reverseIDs t) st) := by
  have hlen : ¬ t.length = 0 := by
    intro h0; exact hne (List.length_eq_zero.mp h0)
  unfold processPlaylist
  simp only [hfetch, hlen, if_false, hcreate]
  refine ⟨_, rfl, ?_, ?_, ?_⟩
  · simp only [World.emit, calls_append, addLoop_calls]
    simp [calls]
  · simp only [World.emit, addLoop_st]
  · simp only [World.emit, logged_append, addLoop_logged]
    simp [logged]

/-- C1: once the fetch has yielded a non-empty track sequence `t` and the
creation succeeds, `processPlaylist` issues, after its page requests, exactly
one create call with owner `userID`, name `p.Name + " Fixed"`, description
`"Fixed copy of " + p.Name` and the flags of `p`, then one append call per
track against the ID of the created playlist, the tracks being `t` reversed:
this is its call trace, and the remote service is left in the state reached
from the state after the creation by receiving these appends in that order. -/
theorem processPlaylist_rebuild {σ : Type} (fuel : Nat) (c : Client σ) (w : World σ)
    (userID : String) (p : SimplePlaylist) (t : List ID) (w1 : World σ)
    (newPlaylist : FullPlaylist) (st : σ)
    (hfetch : fetchLoop c p 50 fuel
      (w.emit [.print ("\nProcessing playlist: " ++ p.Name ++ "\n")]) 0 [] = some (some t, w1))
    (hne : t ≠ [])
    (hcreate : c.CreatePlaylistForUser w1.st userID (p.Name ++ " Fixed")
      ("Fixed copy of " ++ p.Name) p.IsPublic p.Collaborative = (.ok newPlaylist, st)) :
    ∃ (w2 : World σ) (offsets : List Nat), processPlaylist fuel c w userID p = some w2 ∧
      calls w2.trace = calls w.trace ++
        offsets.map (fun o => Call.getPlaylistItems p.ID 50 o) ++
        [Call.createPlaylistForUser userID (p.Name ++ " Fixed") ("Fixed copy of " ++ p.Name)
          p.IsPublic p.Collaborative] ++
        t.reverse.map (fun trackID => Call.addTracksToPlaylist newPlaylist.ID trackID) ∧
      w2.st = runAppends c newPlaylist.ID t.reverse st ∧
      logged w2.trace = logged w1.trace ++
        failureWarnings newPlaylist.Name (appendReplies c newPlaylist.ID t.reverse st) := by
  obtain ⟨w2, hw2, hcalls, hst, hlog⟩ :=
    processPlaylist_calls fuel c w userID p t w1 newPlaylist st hfetch hne hcreate
  obtain ⟨offsets, hoff⟩ := fetchLoop_calls c p 50 fuel _ 0 [] (some t) w1 hfetch
  rw [reverseIDs_eq_reverse] at hcalls hst hlog
  refine ⟨w2, offsets, hw2, ?_, hst, hlog⟩
  rw [hcalls, hoff]
  simp [World.emit, calls]

/-- Witness of C1: the playlist "My Jam" with the tracks `track-A`, `track-B`
becomes "My Jam Fixed", public and not collaborative, filled with `track-B`
then `track-A`; the requests the remote service has received are the page
request, the creation and the two appends in that order, and nothing is
logged. -/
theorem processPlaylist_rebuild_witness :
    (∃ (w2 : World (List Call)) (offsets : List Nat),
      processPlaylist 1 (recordingClient myJamItems []) ⟨[], []⟩ "test-user" myJam = some w2 ∧
      calls w2.trace = [] ++
        offsets.map (fun o => Call.getPlaylistItems "old-playlist" 50 o) ++
        [Call.createPlaylistForUser "test-user" "My Jam Fixed" "Fixed copy of My Jam"
          true false] ++
        [Call.addTracksToPlaylist "new-playlist" "track-B",
          Call.addTracksToPlaylist "new-playlist" "track-A"] ∧
      w2.st = [Call.getPlaylistItems "old-playlist" 50 0,
        Call.createPlaylistForUser "test-user" "My Jam Fixed" "Fixed copy of My Jam" true false,
        Call.addTracksToPlaylist "new-playlist" "track-B",
        Call.addTracksToPlaylist "new-playlist" "track-A"] ∧
      logged w2.trace = []) ∧
    (processPlaylist 1 (recordingClient myJamItems []) ⟨[], []⟩ "test-user" myJam).map
        (fun w2 => (w2.st, calls w2.trace))
      = some ([Call.getPlaylistItems "old-playlist" 50 0,
          Call.createPlaylistForUser "test-user" "My Jam Fixed" "Fixed copy of My Jam"
            true false,
          Call.addTracksToPlaylist "new-playlist" "track-B",
          Call.addTracksToPlaylist "new-playlist" "track-A"],
        [Call.getPlaylistItems "old-playlist" 50 0,
          Call.createPlaylistForUser "test-user" "My Jam Fixed" "Fixed copy of My Jam"
            true false,
          Call.addTracksToPlaylist "new-playlist" "track-B",
          Call.addTracksToPlaylist "new-playlist" "track-A"]) :=
  ⟨processPlaylist_rebuild 1 (recordingClient myJamItems []) ⟨[], []⟩ "test-user" myJam
    ["track-A", "track-B"]
    ⟨[.getPlaylistItems "old-playlist" 50 0],
      [.print "\nProcessing playlist: My Jam\n",
       .call (.getPlaylistItems "old-playlist" 50 0)]⟩
    ⟨"new-playlist", "My Jam Fixed"⟩
    [.getPlaylistItems "old-playlist" 50 0,
      .createPlaylistForUser "test-user" "My Jam Fixed" "Fixed copy of My Jam" true false]
    (by rfl) (by decide) (by rfl), by rfl⟩

/-- The accumulated IDs are as many as the track entries. -/
theorem trackIDs_length (L : List PlaylistItem) :
    (trackIDs L).length = L.countP (fun item => item.Track.isSome) := by
  unfold trackIDs
  induction L with
  | nil => rfl
  | cons item L ih =>
    cases h : item.Track with
    | none => simp [List.filterMap_cons, List.countP_cons, h, ih]
    | some track => simp [List.filterMap_cons, List.countP_cons, h, ih]

/-- C2: against a collaborator that serves the items `L[offset .. offset+50)`
of a list `L` of `n` entries, the fetch loop ends after exactly `n/50 + 1` page
requests, at the offsets 0, 50, 100, ..., and has accumulated the IDs of the
track entries of `L` in their order; their number is the number of track
entries, and when `n` is a positive multiple of 50 the last request returns no
item. -/
theorem fetchLoop_pagination {σ : Type} (c : Client σ) (p : SimplePlaylist)
    (L : List PlaylistItem) (w : World σ) (fuel : Nat)
    (hserve : ∀ st offset,
      (c.GetPlaylistItems st p.ID 50 offset).1 = .ok ((L.drop offset).take 50))
    (hfuel : L.length / 50 < fuel) :
    (∃ w1, fetchLoop c p 50 fuel w 0 [] = some (some (trackIDs L), w1) ∧
      w1.trace = w.trace ++ (List.range (L.length / 50 + 1)).map
        (fun j => Event.call (.getPlaylistItems p.ID 50 (50 * j)))) ∧
    (trackIDs L).length = L.countP (fun item => item.Track.isSome) ∧
    (0 < L.length → L.length % 50 = 0 →
      (L.drop (50 * (L.length / 50))).take 50 = []) := by
  refine ⟨?_, ?_, ?_⟩
  · obtain ⟨w1, hw1, htr⟩ := fetchLoop_serves c p L hserve fuel 0 w [] (by omega) (by omega)
    exact ⟨w1, by simpa using hw1, by simpa using htr⟩
  · exact trackIDs_length L
  · intro _ hmod
    have : 50 * (L.length / 50) = L.length := by omega
    rw [this, List.drop_length]
    rfl

/-- Witness of C2: a playlist of exactly 50 items, one of them an episode, is
fetched with a second request that returns nothing, and 49 tracks are kept. -/
theorem fetchLoop_pagination_witness :
    (∃ w1, fetchLoop (listClient fiftyItems) myJam 50 2 ⟨(), []⟩ 0 []
        = some (some (trackIDs fiftyItems), w1) ∧
      w1.trace = [] ++ (List.range (fiftyItems.length / 50 + 1)).map
        (fun j => Event.call (.getPlaylistItems myJam.ID 50 (50 * j)))) ∧
    (trackIDs fiftyItems).length = fiftyItems.countP (fun item => item.Track.isSome) ∧
    (0 < fiftyItems.length → fiftyItems.length % 50 = 0 →
      (fiftyItems.drop (50 * (fiftyItems.length / 50))).take 50 = []) :=
  fetchLoop_pagination (listClient fiftyItems) myJam fiftyItems ⟨(), []⟩ 2
    (fun _ _ => rfl) (by decide)


/-! ## Failures of remote calls -/

/-- Every index returned by `parseInput` is in range. -/
theorem parseInput_range (input : String) (total : Int) (indices : List Int)
    (h : parseInput input total = .ok indices) : ∀ i ∈ indices, 0 ≤ i ∧ i < total := by
  unfold parseInput at h
  by_cases hne : trimSpace input.data = []
  · simp [hne] at h
  · simp only [hne, if_false] at h
    exact parseLoop_range total _ [] indices h (by simp)

/-- One step of the loop of `main` over the selected indices. -/
theorem processSelected_cons {σ : Type} (fuel : Nat) (c : Client σ) (userID : String)
    (playlists : List SimplePlaylist) (i : Int) (rest : List Int) (w w1 : World σ)
    (p : SimplePlaylist) (hi : 0 ≤ i) (hp : playlists[i.toNat]? = some p)
    (hrun : processPlaylist fuel c w userID p = some w1) :
    processSelected fuel c userID playlists (i :: rest) w
      = processSelected fuel c userID playlists rest w1 := by
  have hneg : ¬ i < 0 := by omega
  rw [processSelected]
  simp only [hneg, if_false, hp, hrun]

/-- C5: the populate loop issues exactly one append call per track of the
reversed sequence, in order, whatever each call returns: the remote service
receives every one of these requests, once, also after one of them has failed,
and each failure is logged as a warning; `processPlaylist` then returns, and
`main` reaches its final message. -/
theorem addLoop_best_effort {σ : Type} (c : Client σ) :
    (∀ (newPlaylist : FullPlaylist) (total : Nat) (r : List ID) (i : Nat) (w : World σ),
      calls (addLoop c newPlaylist total r i w).trace = calls w.trace ++
        r.map (fun trackID => Call.addTracksToPlaylist newPlaylist.ID trackID) ∧
      (addLoop c newPlaylist total r i w).st = runAppends c newPlaylist.ID r w.st ∧
      logged (addLoop c newPlaylist total r i w).trace = logged w.trace ++
        failureWarnings newPlaylist.Name (appendReplies c newPlaylist.ID r w.st)) ∧
    (∀ (fuel : Nat) (w : World σ) (userID : String) (p : SimplePlaylist) (t : List ID)
      (w1 : World σ) (newPlaylist : FullPlaylist) (st : σ),
      fetchLoop c p 50 fuel
        (w.emit [.print ("\nProcessing playlist: " ++ p.Name ++ "\n")]) 0 [] = some (some t, w1) →
      t ≠ [] →
      c.CreatePlaylistForUser w1.st userID (p.Name ++ " Fixed")
        ("Fixed copy of " ++ p.Name) p.IsPublic p.Collaborative = (.ok newPlaylist, st) →
      ∃ w2, processPlaylist fuel c w userID p = some w2 ∧
        calls w2.trace = calls w1.trace ++
          Call.createPlaylistForUser userID (p.Name ++ " Fixed") ("Fixed copy of " ++ p.Name)
            p.IsPublic p.Collaborative ::
          (reverseIDs t).map (fun trackID => Call.addTracksToPlaylist newPlaylist.ID trackID) ∧
        w2.st = runAppends c newPlaylist.ID (reverseIDs t) st ∧
        logged w2.trace = logged w1.trace ++
          failureWarnings newPlaylist.Name
            (appendReplies c newPlaylist.ID (reverseIDs t) st)) ∧
    (∀ (fuel : Nat) (w : World σ) (userID : String) (playlists : List SimplePlaylist)
      (input : String) (i : Int) (p : SimplePlaylist) (t : List ID)
      (w1 : World σ) (newPlaylist : FullPlaylist) (st : σ),
      parseInput input playlists.length = .ok [i] →
      playlists[i.toNat]? = some p →
      fetchLoop c p 50 fuel
        (w.emit [.print ("\nProcessing playlist: " ++ p.Name ++ "\n")]) 0 [] = some (some t, w1) →
      t ≠ [] →
      c.CreatePlaylistForUser w1.st userID (p.Name ++ " Fixed")
        ("Fixed copy of " ++ p.Name) p.IsPublic p.Collaborative = (.ok newPlaylist, st) →
      ∃ w3, mainSelection fuel c userID playlists input w = some (.finished w3) ∧
        w3.trace.getLast? = some (.print "\nDone!\n") ∧
        calls w3.trace = calls w1.trace ++
          Call.createPlaylistForUser userID (p.Name ++ " Fixed") ("Fixed copy of " ++ p.Name)
            p.IsPublic p.Collaborative ::
          (reverseIDs t).map (fun trackID => Call.addTracksToPlaylist newPlaylist.ID trackID) ∧
        w3.st = runAppends c newPlaylist.ID (reverseIDs t) st ∧
        logged w3.trace = logged w1.trace ++
          failureWarnings newPlaylist.Name
            (appendReplies c newPlaylist.ID (reverseIDs t) st)) := by
  refine ⟨fun newPlaylist total r i w =>
    ⟨addLoop_calls c newPlaylist total r i w, addLoop_st c newPlaylist total r i w,
      addLoop_logged c newPlaylist total r i w⟩, ?_, ?_⟩
  · intro fuel w userID p t w1 newPlaylist st hfetch hne hcreate
    exact processPlaylist_calls fuel c w userID p t w1 newPlaylist st hfetch hne hcreate
  · intro fuel w userID playlists input i p t w1 newPlaylist st hparse hp hfetch hne hcreate
    obtain ⟨w2, hw2, hcalls, hst, hlog⟩ :=
      processPlaylist_calls fuel c w userID p t w1 newPlaylist st hfetch hne hcreate
    have hi : 0 ≤ i := (parseInput_range input _ [i] hparse i (by simp)).1
    have hsel : processSelected fuel c userID playlists [i] w = some (.finished w2) := by
      rw [processSelected_cons fuel c userID playlists i [] w w2 p hi hp hw2]
      rfl
    refine ⟨w2.emit [.print "\nDone!\n"], ?_, ?_, ?_, ?_, ?_⟩
    · unfold mainSelection
      simp only [hparse, hsel]
    · simp [World.emit]
    · simp only [World.emit, calls_append, hcalls]
      simp [calls]
    · simp only [World.emit, hst]
    · simp only [World.emit, logged_append, hlog]
      simp [logged]

/-- Witness of C5: the remote service rejects the append of `track-B` and
accepts that of `track-A`; it has received both requests, once each, in the
reversed order, the failure is logged, and the run ends with the final
message. -/
theorem addLoop_best_effort_witness :
    (∃ w3, mainSelection 1 (recordingClient myJamItems ["track-B"]) "test-user" [myJam] "1"
        ⟨[], []⟩ = some (.finished w3) ∧
      w3.trace.getLast? = some (.print "\nDone!\n") ∧
      calls w3.trace = [Call.getPlaylistItems "old-playlist" 50 0] ++
        Call.createPlaylistForUser "test-user" "My Jam Fixed" "Fixed copy of My Jam"
          true false ::
        [Call.addTracksToPlaylist "new-playlist" "track-B",
          Call.addTracksToPlaylist "new-playlist" "track-A"] ∧
      w3.st = [Call.getPlaylistItems "old-playlist" 50 0,
        Call.createPlaylistForUser "test-user" "My Jam Fixed" "Fixed copy of My Jam" true false,
        Call.addTracksToPlaylist "new-playlist" "track-B",
        Call.addTracksToPlaylist "new-playlist" "track-A"] ∧
      logged w3.trace =
        ["Failed to add track track-B to playlist My Jam Fixed: rate limited\n"]) ∧
    (match mainSelection 1 (recordingClient myJamItems ["track-B"]) "test-user" [myJam] "1"
        ⟨[], []⟩ with
      | some (.finished w3) => some (w3.st, logged w3.trace, w3.trace.getLast?)
      | _ => none)
      = some ([Call.getPlaylistItems "old-playlist" 50 0,
          Call.createPlaylistForUser "test-user" "My Jam Fixed" "Fixed copy of My Jam"
            true false,
          Call.addTracksToPlaylist "new-playlist" "track-B",
          Call.addTracksToPlaylist "new-playlist" "track-A"],
        ["Failed to add track track-B to playlist My Jam Fixed: rate limited\n"],
        some (.print "\nDone!\n")) :=
  ⟨(addLoop_best_effort (recordingClient myJamItems ["track-B"])).2.2 1 ⟨[], []⟩ "test-user"
    [myJam] "1" 0 myJam ["track-A", "track-B"]
    ⟨[.getPlaylistItems "old-playlist" 50 0],
      [.print "\nProcessing playlist: My Jam\n",
       .call (.getPlaylistItems "old-playlist" 50 0)]⟩
    ⟨"new-playlist", "My Jam Fixed"⟩
    [.getPlaylistItems "old-playlist" 50 0,
      .createPlaylistForUser "test-user" "My Jam Fixed" "Fixed copy of My Jam" true false]
    (by rfl) (by rfl) (by rfl) (by decide) (by rfl), by rfl⟩

/-- A fetch loop whose first `k` requests return pages that are not short and
whose next request fails ends without a track list, after `k + 1` requests. -/
theorem fetchLoop_fails {σ : Type} (c : Client σ) (p : SimplePlaylist) (limit : Nat)
    (k : Nat) : ∀ (fuel : Nat) (w : World σ) (offset : Nat) (allTracks : List ID),
    failsAfterPages c p limit k w.st offset = true → k < fuel →
    ∃ w1, fetchLoop c p limit fuel w offset allTracks = some (none, w1) ∧
      calls w1.trace = calls w.trace ++ (List.range (k + 1)).map
        (fun j => Call.getPlaylistItems p.ID limit (offset + limit * j)) := by
  induction k with
  | zero =>
    intro fuel w offset allTracks hfail hfuel
    obtain ⟨fuel, rfl⟩ : ∃ f, fuel = f + 1 := ⟨fuel - 1, by omega⟩
    rw [failsAfterPages] at hfail
    rw [fetchLoop]
    rcases hget : c.GetPlaylistItems w.st p.ID limit offset with ⟨res, st⟩
    rw [hget] at hfail
    cases res with
    | ok items => simp at hfail
    | error err => exact ⟨_, rfl, by simp [calls, List.range_succ]⟩
  | succ k ih =>
    intro fuel w offset allTracks hfail hfuel
    obtain ⟨fuel, rfl⟩ : ∃ f, fuel = f + 1 := ⟨fuel - 1, by omega⟩
    rw [failsAfterPages] at hfail
    rw [fetchLoop]
    rcases hget : c.GetPlaylistItems w.st p.ID limit offset with ⟨res, st⟩
    rw [hget] at hfail
    cases res with
    | error err => simp at hfail
    | ok items =>
      simp only [Bool.and_eq_true, Bool.not_eq_true', decide_eq_false_iff_not] at hfail
      obtain ⟨hfull, hrest⟩ := hfail
      simp only [hfull, if_false]
      obtain ⟨w1, hw1, hcalls⟩ := ih fuel
        ⟨st, w.trace ++ [.call (.getPlaylistItems p.ID limit offset)]⟩ (offset + limit)
        (appendTracks allTracks items) hrest (by omega)
      refine ⟨w1, hw1, ?_⟩
      rw [hcalls, List.range_succ_eq_map (k + 1)]
      simp only [calls_append, List.map_cons, List.map_map, List.append_assoc]
      simp [calls, Function.comp_def, Nat.mul_add, Nat.add_assoc]
      intro a _
      exact Nat.add_comm _ _

/-- C9: when the first `k` page requests succeed with full pages and the next
one fails, `processPlaylist` returns after these `k + 1` requests without any
create or append call, and `main` goes on with the next selected playlist. -/
theorem processPlaylist_fetch_failure {σ : Type} (fuel : Nat) (c : Client σ) (w : World σ)
    (userID : String) (p : SimplePlaylist) (k : Nat)
    (hfail : failsAfterPages c p 50 k w.st 0 = true) (hfuel : k < fuel) :
    ∃ w1, processPlaylist fuel c w userID p = some w1 ∧
      calls w1.trace = calls w.trace ++ (List.range (k + 1)).map
        (fun j => Call.getPlaylistItems p.ID 50 (50 * j)) ∧
      ∀ (playlists : List SimplePlaylist) (i : Int) (rest : List Int),
        0 ≤ i → playlists[i.toNat]? = some p →
        processSelected fuel c userID playlists (i :: rest) w
          = processSelected fuel c userID playlists rest w1 := by
  obtain ⟨w1, hw1, hcalls⟩ := fetchLoop_fails c p 50 k fuel
    (w.emit [.print ("\nProcessing playlist: " ++ p.Name ++ "\n")]) 0 [] hfail hfuel
  have hrun : processPlaylist fuel c w userID p = some w1 := by
    unfold processPlaylist
    simp only [hw1]
  refine ⟨w1, hrun, ?_, ?_⟩
  · rw [hcalls]
    simp [World.emit, calls]
  · intro playlists i rest hi hp
    exact processSelected_cons fuel c userID playlists i rest w w1 p hi hp hrun

/-- Witness of C9: the second page request fails after one full page. -/
theorem processPlaylist_fetch_failure_witness :
    ∃ w1, processPlaylist 2 (brokenClient 1) ⟨0, []⟩ "test-user" myJam = some w1 ∧
      calls w1.trace = [] ++ [Call.getPlaylistItems "old-playlist" 50 0,
        Call.getPlaylistItems "old-playlist" 50 50] ∧
      ∀ (playlists : List SimplePlaylist) (i : Int) (rest : List Int),
        0 ≤ i → playlists[i.toNat]? = some myJam →
        processSelected 2 (brokenClient 1) "test-user" playlists (i :: rest) ⟨0, []⟩
          = processSelected 2 (brokenClient 1) "test-user" playlists rest w1 :=
  processPlaylist_fetch_failure 2 (brokenClient 1) ⟨0, []⟩ "test-user" myJam 1
    (by rfl) (by decide)

/-! ## Status codes of the `/callback` handler -/

/-- C10: the handler calls `auth.Token` before it compares the state, so for a
request whose state parameter differs from the generated state and whose token
retrieval fails it writes 403, not 404, and ends the process; in general it
writes 403 exactly when `auth.Token` fails, whatever the state parameter is,
404 exactly when that call succeeds and the state differs, and 200 with
delivery of the client exactly when the call succeeds and the state matches. -/
theorem callbackHandler_token_before_state :
    callbackHandler (fun _ _ => .error "token exchange failed") "good"
        ⟨[("code", "abc"), ("state", "bad")]⟩
      = ⟨403, "Couldn't get token\n", true, none⟩ ∧
    (⟨[("code", "abc"), ("state", "bad")]⟩ : Request).FormValue "state" ≠ "good" ∧
    ∀ (authToken : String → Request → Except String Token) (state : String) (r : Request),
      ((callbackHandler authToken state r).status = 403 ↔
        ∃ err, authToken state r = .error err) ∧
      ((callbackHandler authToken state r).status = 404 ↔
        (∃ token, authToken state r = .ok token) ∧ r.FormValue "state" ≠ state) ∧
      ((callbackHandler authToken state r).status = 200 ↔
        (∃ token, authToken state r = .ok token) ∧ r.FormValue "state" = state) ∧
      (∀ token, (callbackHandler authToken state r).delivered = some token ↔
        authToken state r = .ok token ∧ r.FormValue "state" = state) ∧
      ((callbackHandler authToken state r).exits = true ↔
        (callbackHandler authToken state r).status ≠ 200) := by
  refine ⟨by rfl, by decide, ?_⟩
  intro authToken state r
  unfold callbackHandler
  cases h : authToken state r with
  | error err => simp
  | ok token =>
    by_cases hs : r.FormValue "state" = state
    · simp [hs]
    · simp [hs]

end SpotifyFix
